import Mathlib

/-!
Verification of the note_app_backend caching/repository core.

Shallow embedding of:
- `app/models/note.py` (Note, NoteCreate, NoteUpdate)
- `app/core/cache.py` (CacheService over a Redis-like TTL key-value backend)
- `app/core/database.py` (FirestoreService sub-collection operations)
- `app/services/note_service_optimized.py` (OptimizedNoteService)

Timestamps are modelled as naturals, the Firestore store as a function from
owner id to an association list (note id, document) representing the owner's
"notes" sub-collection, and the Redis cache as an association list from key
strings to typed values (the JSON round trip through Redis is the identity in
the model).  Cache-backend and store failures are modelled with `Except Unit`:
a `Backend` record carries the Redis primitives, instantiated by a healthy
pure backend and by a failing backend, and the Firestore calls take a flag
that makes every store call raise.  TTLs are carried but not given temporal
semantics; "expiry" of an entry is modelled as removal of its key.
-/

namespace NoteApp

/-- Python decimal digit character: `digitChar d` is the character for digit `d < 10`. -/
def digitChar (d : Nat) : Char := Char.ofNat (48 + d)

/-- Fueled decimal rendering accumulator (standard divide-by-ten algorithm,
modelling Python's decimal formatting of a non-negative int in an f-string). -/
def natDecimalAux : Nat → Nat → List Char → List Char
  | 0, _, acc => acc
  | fuel + 1, n, acc =>
    if n < 10 then digitChar n :: acc
    else natDecimalAux fuel (n / 10) (digitChar (n % 10) :: acc)

/-- The decimal digit characters of a natural number (most significant first). -/
def natDigits (n : Nat) : List Char := natDecimalAux (n + 1) n []

/-- Decimal rendering of a natural number, modelling Python's `str`/f-string
formatting of the non-negative ints used as `limit`/`offset`. -/
def natDecimal (n : Nat) : String := ⟨natDigits n⟩

/-- Read a digit string back as a number (left inverse of `natDigits`). -/
def digitsVal (l : List Char) : Nat :=
  l.foldl (fun a c => 10 * a + (c.toNat - 48)) 0

/-- Python `str(bool)` / f-string rendering of a bool: `True` or `False`. -/
def pyBool (b : Bool) : String := if b then "True" else "False"

/-- A note document as stored in the owner's `notes` sub-collection
(`note_data_dict` in `create_note`; the document id is the association-list key). -/
structure NoteDoc where
  title : String
  content : String
  is_deleted : Bool
  is_pinned : Bool
  format : String
  color : String
  created_at : Nat
  updated_at : Nat
deriving DecidableEq, Repr

/-- The `Note` response model of `app/models/note.py`. -/
structure Note where
  id : String
  title : String
  content : String
  is_deleted : Bool
  is_pinned : Bool
  format : String
  color : String
  user_id : String
  created_at : Nat
  updated_at : Nat
deriving DecidableEq, Repr

/-- `NoteCreate` of `app/models/note.py` (its `is_deleted` field is ignored by
`create_note`, which always stores `False`). -/
structure NoteCreate where
  title : String
  content : String
  is_deleted : Bool := false
  is_pinned : Bool := false
  format : String := "text"
  color : String := "primary"
deriving DecidableEq, Repr

/-- `NoteUpdate` of `app/models/note.py`: every field optional. -/
structure NoteUpdate where
  title : Option String := none
  content : Option String := none
  is_deleted : Option Bool := none
  is_pinned : Option Bool := none
  format : Option String := none
  color : Option String := none
deriving DecidableEq, Repr

/-- A partial-update dictionary as passed to Firestore `update` by the service
(`update_data`): only the fields the service ever writes appear. -/
structure UpdateData where
  title : Option String := none
  content : Option String := none
  is_deleted : Option Bool := none
  is_pinned : Option Bool := none
  format : Option String := none
  color : Option String := none
  updated_at : Option Nat := none
deriving DecidableEq, Repr

/-- Firestore `DocumentReference.update`: merge the provided fields into the
existing document, leaving absent fields untouched. -/
def applyUpd (d : NoteDoc) (u : UpdateData) : NoteDoc :=
  { title := u.title.getD d.title
    content := u.content.getD d.content
    is_deleted := u.is_deleted.getD d.is_deleted
    is_pinned := u.is_pinned.getD d.is_pinned
    format := u.format.getD d.format
    color := u.color.getD d.color
    created_at := d.created_at
    updated_at := u.updated_at.getD d.updated_at }

/-- Building the `Note` response model from a stored document dict
`{"id": nid, **data}` plus the provided `user_id` (as done in each service method). -/
def noteOfDoc (nid uid : String) (d : NoteDoc) : Note :=
  { id := nid
    title := d.title
    content := d.content
    is_deleted := d.is_deleted
    is_pinned := d.is_pinned
    format := d.format
    color := d.color
    user_id := uid
    created_at := d.created_at
    updated_at := d.updated_at }

/-- One owner's `notes` sub-collection: association list from note id to document. -/
abbrev Subcoll := List (String × NoteDoc)

/-- The `users` collection: each owner id maps to their `notes` sub-collection. -/
abbrev Store := String → Subcoll

/-- Look a note id up in a sub-collection. -/
def lookupA (l : Subcoll) (nid : String) : Option NoteDoc :=
  (l.find? (fun p => p.1 == nid)).map (·.2)

/-- Firestore `set` on a sub-collection document: overwrite in place, else append. -/
def setA (l : Subcoll) (nid : String) (d : NoteDoc) : Subcoll :=
  match l with
  | [] => [(nid, d)]
  | (k, v) :: t => if k == nid then (nid, d) :: t else (k, v) :: setA t nid d

/-- Firestore `update` on a sub-collection: merge fields into the matching document. -/
def updA (l : Subcoll) (nid : String) (u : UpdateData) : Subcoll :=
  l.map (fun p => if p.1 == nid then (p.1, applyUpd p.2 u) else p)

/-- Typed model of a Redis value (everything is a JSON/int string in Redis;
the three key families store these three shapes). -/
inductive CacheVal where
  | vnotes : List Note → CacheVal
  | vnote : Note → CacheVal
  | vint : Int → CacheVal
deriving DecidableEq, Repr

/-- The Redis keyspace: association list from key to value (keys unique). -/
abbrev CacheState := List (String × CacheVal)

/-- Redis `GET`. -/
def assocFind (c : CacheState) (k : String) : Option CacheVal :=
  (c.find? (fun kv => kv.1 == k)).map (·.2)

/-- Redis `SET`/`SETEX` value placement: overwrite any previous binding of the key. -/
def assocSet (c : CacheState) (k : String) (v : CacheVal) : CacheState :=
  (k, v) :: c.filter (fun kv => kv.1 != k)

/-- The prefix denoted by a glob pattern of the shape `p*` (the only shape the
code uses): everything before the trailing star. -/
def patPrefixOf (pat : String) : List Char := pat.data.dropLast

/-- Whether a key matches a `p*` glob pattern (the ids the code interpolates
contain no other glob metacharacters). -/
def patMatch (pat k : String) : Bool := (patPrefixOf pat).isPrefixOf k.data

/-- The Redis primitives used by `CacheService`, each able to fail
(connectivity/serialization).  State is passed explicitly; `Except Unit`
models a raised exception. -/
structure Backend where
  bget : CacheState → String → Except Unit (Option CacheVal × CacheState)
  bsetex : CacheState → String → Nat → CacheVal → Except Unit CacheState
  bkeys : CacheState → String → Except Unit (List String × CacheState)
  bdel : CacheState → List String → Except Unit CacheState
  bincrby : CacheState → String → Int → Except Unit CacheState
  bexpire : CacheState → String → Nat → Except Unit CacheState

/-- A healthy Redis: pure keyspace semantics.  `INCRBY` on a key holding a
non-integer value raises, as in Redis; `EXPIRE` is a no-op since TTLs get no
temporal semantics in the model. -/
def healthyB : Backend :=
  { bget := fun c k => .ok (assocFind c k, c)
    bsetex := fun c k _ v => .ok (assocSet c k v)
    bkeys := fun c pat => .ok ((c.map (·.1)).filter (fun k => patMatch pat k), c)
    bdel := fun c ks => .ok (c.filter (fun kv => !ks.contains kv.1))
    bincrby := fun c k d =>
      match assocFind c k with
      | none => .ok (assocSet c k (.vint d))
      | some (.vint i) => .ok (assocSet c k (.vint (i + d)))
      | some _ => .error ()
    bexpire := fun c _ _ => .ok c }

/-- A fully unavailable Redis backend: every call raises. -/
def failB : Backend :=
  { bget := fun _ _ => .error ()
    bsetex := fun _ _ _ _ => .error ()
    bkeys := fun _ _ => .error ()
    bdel := fun _ _ => .error ()
    bincrby := fun _ _ _ => .error ()
    bexpire := fun _ _ _ => .error () }

namespace CacheService

/-- `CacheService.get_notes_cache_key`. -/
def get_notes_cache_key (user_id : String) (include_deleted : Bool)
    (limit offset : Nat) : String :=
  "notes:user:" ++ user_id ++ ":deleted:" ++ pyBool include_deleted ++
    ":limit:" ++ natDecimal limit ++ ":offset:" ++ natDecimal offset

/-- `CacheService.get_note_cache_key`. -/
def get_note_cache_key (note_id user_id : String) : String :=
  "note:" ++ note_id ++ ":user:" ++ user_id

/-- `CacheService.get_user_notes_count_key`. -/
def get_user_notes_count_key (user_id : String) (include_deleted : Bool) : String :=
  "notes_count:user:" ++ user_id ++ ":deleted:" ++ pyBool include_deleted

/-- `CacheService.get_notes`: read a cached list page; any backend failure is
caught and becomes a miss (`none`).  A cached value of the wrong shape cannot
arise under the service's key discipline and is also read as a miss. -/
def get_notes (b : Backend) (c : CacheState) (user_id : String)
    (include_deleted : Bool) (limit offset : Nat) : Option (List Note) × CacheState :=
  match b.bget c (get_notes_cache_key user_id include_deleted limit offset) with
  | .ok (some (.vnotes l), c₁) => (some l, c₁)
  | .ok (some _, c₁) => (none, c₁)
  | .ok (none, c₁) => (none, c₁)
  | .error _ => (none, c)

/-- `CacheService.set_notes`: cache a list page with TTL (default 300s);
failure is caught and returned as `false`. -/
def set_notes (b : Backend) (c : CacheState) (user_id : String) (notes : List Note)
    (include_deleted : Bool) (limit offset : Nat) (ttl : Option Nat) : Bool × CacheState :=
  match b.bsetex c (get_notes_cache_key user_id include_deleted limit offset)
      (ttl.getD 300) (.vnotes notes) with
  | .ok c₁ => (true, c₁)
  | .error _ => (false, c)

/-- `CacheService.get_note`. -/
def get_note (b : Backend) (c : CacheState) (note_id user_id : String) :
    Option Note × CacheState :=
  match b.bget c (get_note_cache_key note_id user_id) with
  | .ok (some (.vnote n), c₁) => (some n, c₁)
  | .ok (some _, c₁) => (none, c₁)
  | .ok (none, c₁) => (none, c₁)
  | .error _ => (none, c)

/-- `CacheService.set_note` (key derived from the note's own id and user_id). -/
def set_note (b : Backend) (c : CacheState) (note : Note) (ttl : Option Nat) :
    Bool × CacheState :=
  match b.bsetex c (get_note_cache_key note.id note.user_id) (ttl.getD 300) (.vnote note) with
  | .ok c₁ => (true, c₁)
  | .error _ => (false, c)

/-- `CacheService.invalidate_user_notes`: delete every key matching
`notes:user:{uid}:*`, then every key matching `notes_count:user:{uid}:*`
(note: this also wipes the count keys, not only the list keys). -/
def invalidate_user_notes (b : Backend) (c : CacheState) (user_id : String) :
    Bool × CacheState :=
  match b.bkeys c ("notes:user:" ++ user_id ++ ":*") with
  | .error _ => (false, c)
  | .ok (keys, c₁) =>
    match (if keys.isEmpty then .ok c₁ else b.bdel c₁ keys) with
    | .error _ => (false, c)
    | .ok c₂ =>
      match b.bkeys c₂ ("notes_count:user:" ++ user_id ++ ":*") with
      | .error _ => (false, c)
      | .ok (countKeys, c₃) =>
        match (if countKeys.isEmpty then .ok c₃ else b.bdel c₃ countKeys) with
        | .error _ => (false, c)
        | .ok c₄ => (true, c₄)

/-- `CacheService.invalidate_note`: delete the note-by-id key, then invalidate
the user's list (and, transitively, count) keys; the inner call's boolean is
ignored, as in the source. -/
def invalidate_note (b : Backend) (c : CacheState) (note_id user_id : String) :
    Bool × CacheState :=
  match b.bdel c [get_note_cache_key note_id user_id] with
  | .error _ => (false, c)
  | .ok c₁ =>
    let r := invalidate_user_notes b c₁ user_id
    (true, r.2)

/-- `CacheService.get_notes_count`. -/
def get_notes_count (b : Backend) (c : CacheState) (user_id : String)
    (include_deleted : Bool) : Option Int × CacheState :=
  match b.bget c (get_user_notes_count_key user_id include_deleted) with
  | .ok (some (.vint i), c₁) => (some i, c₁)
  | .ok (some _, c₁) => (none, c₁)
  | .ok (none, c₁) => (none, c₁)
  | .error _ => (none, c)

/-- `CacheService.set_notes_count`. -/
def set_notes_count (b : Backend) (c : CacheState) (user_id : String) (count : Int)
    (include_deleted : Bool) (ttl : Option Nat) : Bool × CacheState :=
  match b.bsetex c (get_user_notes_count_key user_id include_deleted)
      (ttl.getD 300) (.vint count) with
  | .ok c₁ => (true, c₁)
  | .error _ => (false, c)

/-- `CacheService.increment_notes_count`: `INCRBY` then `EXPIRE`; any failure
is caught and returned as `false`. -/
def increment_notes_count (b : Backend) (c : CacheState) (user_id : String)
    (include_deleted : Bool) (increment : Int) : Bool × CacheState :=
  match b.bincrby c (get_user_notes_count_key user_id include_deleted) increment with
  | .error _ => (false, c)
  | .ok c₁ =>
    match b.bexpire c₁ (get_user_notes_count_key user_id include_deleted) 300 with
    | .error _ => (false, c)
    | .ok c₂ => (true, c₂)

end CacheService

/-- The only filter shape the service passes to `query_subcollection`:
`("is_deleted", "==", value)`. -/
inductive NoteFilter where
  | isDeletedEq : Bool → NoteFilter
deriving DecidableEq, Repr

/-- Evaluate a filter on a document. -/
def matchF (f : NoteFilter) (d : NoteDoc) : Bool :=
  match f with
  | .isDeletedEq v => d.is_deleted == v

namespace FirestoreService

/-- `get_subcollection_document` specialised to `users/{uid}/notes/{nid}`;
`sf = true` models a raised store failure. -/
def get_subcollection_document (sf : Bool) (st : Store) (uid nid : String) :
    Except Unit (Option NoteDoc) :=
  if sf then .error () else .ok (lookupA (st uid) nid)

/-- `create_subcollection_document`: Firestore `set`, overwriting any
existing document with the given id. -/
def create_subcollection_document (sf : Bool) (st : Store) (uid nid : String)
    (d : NoteDoc) : Except Unit Store :=
  if sf then .error ()
  else .ok (fun u => if u == uid then setA (st u) nid d else st u)

/-- `update_subcollection_document`: Firestore `update` (raises on a missing
document, as the client library does) followed by a re-read of the document. -/
def update_subcollection_document (sf : Bool) (st : Store) (uid nid : String)
    (u : UpdateData) : Except Unit (Option NoteDoc × Store) :=
  if sf then .error ()
  else
    match lookupA (st uid) nid with
    | none => .error ()
    | some _ =>
      let st₁ : Store := fun v => if v == uid then updA (st v) nid u else st v
      .ok (lookupA (st₁ uid) nid, st₁)

/-- `query_subcollection`: filter the sub-collection, then apply the limit.
A limit of `0` models Python's falsy `limit` (no truncation, as in the count
path which passes no limit). -/
def query_subcollection (sf : Bool) (st : Store) (uid : String)
    (fs : List NoteFilter) (limit : Nat) : Except Unit (List (String × NoteDoc)) :=
  if sf then .error ()
  else
    let ms := (st uid).filter (fun p => fs.all (fun f => matchF f p.2))
    .ok (if limit = 0 then ms else ms.take limit)

end FirestoreService

/-- The filters the service builds for a read: `[]` when deleted notes are
included, `[("is_deleted", "==", False)]` otherwise. -/
def mkFilters (include_deleted : Bool) : List NoteFilter :=
  if include_deleted then [] else [NoteFilter.isDeletedEq false]

/-- The matching documents of an owner's sub-collection for a read, in store order. -/
def matchingDocs (st : Store) (uid : String) (include_deleted : Bool) :
    List (String × NoteDoc) :=
  (st uid).filter (fun p => (mkFilters include_deleted).all (fun f => matchF f p.2))

/-- Stable insertion step for a descending sort by key: an element passes over
strictly greater keys and lands before the first key less than or equal to its
own, so earlier elements precede later ones on ties. -/
def insertByDesc (key : α → Nat) (x : α) : List α → List α
  | [] => [x]
  | y :: ys => if key x < key y then y :: insertByDesc key x ys else x :: y :: ys

/-- Stable descending sort by key, modelling Python's stable
`list.sort(key=..., reverse=True)`. -/
def sortByDesc (key : α → Nat) : List α → List α
  | [] => []
  | x :: xs => insertByDesc key x (sortByDesc key xs)

/-- Combined system state: the authoritative store and the cache keyspace. -/
structure Sys where
  store : Store
  cache : CacheState

namespace OptimizedNoteService

/-- `OptimizedNoteService.create_note`.  The time-derived note id and the
current timestamp are passed as parameters.  On a store failure the operation
raises (`HTTPException 500`, modelled as `.error ()`); cache failures inside
the called cache methods never escape them. -/
def create_note (sf : Bool) (b : Backend) (sys : Sys) (inp : NoteCreate)
    (uid nid : String) (now : Nat) : Except Unit (Note × Sys) :=
  let d : NoteDoc :=
    { title := inp.title, content := inp.content, is_deleted := false
      is_pinned := inp.is_pinned, format := inp.format, color := inp.color
      created_at := now, updated_at := now }
  match FirestoreService.create_subcollection_document sf sys.store uid nid d with
  | .error _ => .error ()
  | .ok st₁ =>
    let note := noteOfDoc nid uid d
    let r₁ := CacheService.set_note b sys.cache note none
    let r₂ := CacheService.invalidate_user_notes b r₁.2 uid
    let r₃ := CacheService.increment_notes_count b r₂.2 uid false 1
    .ok (note, ⟨st₁, r₃.2⟩)

/-- `OptimizedNoteService.get_note`: note-by-id cache first (a cached dict is
always truthy), then the store; a store miss returns the not-found sentinel. -/
def get_note (sf : Bool) (b : Backend) (sys : Sys) (nid uid : String) :
    Except Unit (Option Note × Sys) :=
  match CacheService.get_note b sys.cache nid uid with
  | (some n, c₁) => .ok (some n, ⟨sys.store, c₁⟩)
  | (none, c₁) =>
    match FirestoreService.get_subcollection_document sf sys.store uid nid with
    | .error _ => .error ()
    | .ok none => .ok (none, ⟨sys.store, c₁⟩)
    | .ok (some d) =>
      let note := noteOfDoc nid uid d
      let r := CacheService.set_note b c₁ note none
      .ok (some note, ⟨sys.store, r.2⟩)

/-- `OptimizedNoteService.get_notes`: the cached page is used only when
non-empty (Python truthiness of the list); on a miss, query up to
`limit + offset` records, sort by `updated_at` descending, apply the offset
and limit manually, cache and return the page. -/
def get_notes (sf : Bool) (b : Backend) (sys : Sys) (uid : String)
    (include_deleted : Bool) (limit offset : Nat) : Except Unit (List Note × Sys) :=
  let cached := CacheService.get_notes b sys.cache uid include_deleted limit offset
  match cached.1 with
  | some (n :: rest) => .ok (n :: rest, ⟨sys.store, cached.2⟩)
  | _ =>
    match FirestoreService.query_subcollection sf sys.store uid
        (mkFilters include_deleted) (limit + offset) with
    | .error _ => .error ()
    | .ok docs =>
      let sorted := sortByDesc (fun p => p.2.updated_at) docs
      let paged := (if offset > 0 then sorted.drop offset else sorted).take limit
      let notes := paged.map (fun p => noteOfDoc p.1 uid p.2)
      let r := CacheService.set_notes b cached.2 uid notes include_deleted limit offset none
      .ok (notes, ⟨sys.store, r.2⟩)

/-- `OptimizedNoteService.get_notes_count`: cached count first; on a miss,
query the store with no limit and count exactly.  Its `except` clause returns
`0` instead of raising, so a store failure yields `.ok (0, sys)`. -/
def get_notes_count (sf : Bool) (b : Backend) (sys : Sys) (uid : String)
    (include_deleted : Bool) : Except Unit (Int × Sys) :=
  let cached := CacheService.get_notes_count b sys.cache uid include_deleted
  match cached.1 with
  | some i => .ok (i, ⟨sys.store, cached.2⟩)
  | none =>
    match FirestoreService.query_subcollection sf sys.store uid
        (mkFilters include_deleted) 0 with
    | .error _ => .ok (0, sys)
    | .ok docs =>
      let cnt : Int := docs.length
      let r := CacheService.set_notes_count b cached.2 uid cnt include_deleted none
      .ok (cnt, ⟨sys.store, r.2⟩)

/-- `OptimizedNoteService.update_note`: existence check, then a partial update
consisting of exactly the provided fields plus a refreshed `updated_at`,
then cache refresh and list invalidation. -/
def update_note (sf : Bool) (b : Backend) (sys : Sys) (nid : String)
    (u : NoteUpdate) (uid : String) (now : Nat) : Except Unit (Option Note × Sys) :=
  match FirestoreService.get_subcollection_document sf sys.store uid nid with
  | .error _ => .error ()
  | .ok none => .ok (none, sys)
  | .ok (some _) =>
    let ud : UpdateData :=
      { updated_at := some now, title := u.title, content := u.content
        is_deleted := u.is_deleted, is_pinned := u.is_pinned
        format := u.format, color := u.color }
    match FirestoreService.update_subcollection_document sf sys.store uid nid ud with
    | .error _ => .error ()
    | .ok (none, st₁) => .ok (none, ⟨st₁, sys.cache⟩)
    | .ok (some d₁, st₁) =>
      let note := noteOfDoc nid uid d₁
      let r₁ := CacheService.set_note b sys.cache note none
      let r₂ := CacheService.invalidate_user_notes b r₁.2 uid
      .ok (some note, ⟨st₁, r₂.2⟩)

/-- `OptimizedNoteService.delete_note`: existence check, then the soft delete
`{"is_deleted": True, "updated_at": now}`, then cache invalidation and the two
counter adjustments (which land after `invalidate_user_notes` has deleted the
count keys). -/
def delete_note (sf : Bool) (b : Backend) (sys : Sys) (nid uid : String)
    (now : Nat) : Except Unit (Bool × Sys) :=
  match FirestoreService.get_subcollection_document sf sys.store uid nid with
  | .error _ => .error ()
  | .ok none => .ok (false, sys)
  | .ok (some _) =>
    let ud : UpdateData := { is_deleted := some true, updated_at := some now }
    match FirestoreService.update_subcollection_document sf sys.store uid nid ud with
    | .error _ => .error ()
    | .ok (none, st₁) => .ok (false, ⟨st₁, sys.cache⟩)
    | .ok (some _, st₁) =>
      let r₁ := CacheService.invalidate_note b sys.cache nid uid
      let r₂ := CacheService.invalidate_user_notes b r₁.2 uid
      let r₃ := CacheService.increment_notes_count b r₂.2 uid false (-1)
      let r₄ := CacheService.increment_notes_count b r₃.2 uid true 1
      .ok (true, ⟨st₁, r₄.2⟩)

end OptimizedNoteService

/-- One invocation of an exposed repository operation for a fixed owner, with
its non-deterministic inputs (generated id, timestamps, payloads) as data. -/
inductive NoteOp where
  | createOp : NoteCreate → String → Nat → NoteOp
  | getOp : String → NoteOp
  | listOp : Bool → Nat → Nat → NoteOp
  | updateOp : String → NoteUpdate → Nat → NoteOp
  | deleteOp : String → Nat → NoteOp
  | countOp : Bool → NoteOp

/-- Resulting system state of a service call (healthy runs never take the
fallback, which returns the input state). -/
def stSys (dflt : Sys) : Except Unit (α × Sys) → Sys
  | .ok p => p.2
  | .error _ => dflt

/-- Run one repository operation for owner `uid` against a healthy store and
cache, keeping only the system state. -/
def runOp (uid : String) (sys : Sys) : NoteOp → Sys
  | .createOp inp nid now => stSys sys (OptimizedNoteService.create_note false healthyB sys inp uid nid now)
  | .getOp nid => stSys sys (OptimizedNoteService.get_note false healthyB sys nid uid)
  | .listOp incDel lim off => stSys sys (OptimizedNoteService.get_notes false healthyB sys uid incDel lim off)
  | .updateOp nid u now => stSys sys (OptimizedNoteService.update_note false healthyB sys nid u uid now)
  | .deleteOp nid now => stSys sys (OptimizedNoteService.delete_note false healthyB sys nid uid now)
  | .countOp incDel => stSys sys (OptimizedNoteService.get_notes_count false healthyB sys uid incDel)

/-- Operations that do not explicitly clear the soft-delete flag of note
`nid`: every operation except an update of `nid` whose fields carry
`is_deleted=False` and a create colliding with id `nid` (which overwrites). -/
def preservesDeleted (nid : String) : NoteOp → Prop
  | .createOp _ nid₂ _ => nid₂ ≠ nid
  | .updateOp nid₂ u _ => nid₂ = nid → u.is_deleted ≠ some false
  | _ => True

/-- The returned count of a `get_notes_count` call (`-1000` is unreachable:
the call never errors against a healthy store). -/
def countVal : Except Unit (Int × Sys) → Int
  | .ok p => p.1
  | .error _ => -1000

/-- The ids of the notes returned by a `get_notes` call. -/
def idsOf : Except Unit (List Note × Sys) → List String
  | .ok p => p.1.map (·.id)
  | .error _ => []

/-- The `is_deleted` flag of note `nid` of owner `uid` in the state a service
call produced (`none` when the call errored or the note is absent). -/
def deletedFlagAfter (uid nid : String) : Except Unit (α × Sys) → Option Bool
  | .ok p => (lookupA (p.2.store uid) nid).map NoteDoc.is_deleted
  | .error _ => none

/-- The net effect of a healthy `KEYS p*` followed by `DEL` of the result (the
step `invalidate_user_notes` performs twice): drop every entry whose key
matches the pattern (no deletion call is made when nothing matches). -/
def delMatching (c : CacheState) (pat : String) : CacheState :=
  let ks := (c.map (·.1)).filter (fun k => patMatch pat k)
  if ks.isEmpty then c else c.filter (fun kv => !ks.contains kv.1)

/-- Removal of a single cache key: the model of TTL expiry of that entry. -/
def removeKey (c : CacheState) (k : String) : CacheState :=
  c.filter (fun kv => kv.1 != k)

/-- Descending sortedness by key (what Python's `reverse=True` sort ensures,
and the fixed-point condition for the stable sort). -/
def SortedDesc (key : α → Nat) (l : List α) : Prop :=
  l.Pairwise (fun a b => key b ≤ key a)

/-- The empty store: no owner has any note. -/
def emptyStore : Store := fun _ => []

/-- Empty system state: empty store, empty cache. -/
def emptySys : Sys := ⟨emptyStore, []⟩

/-- A sample `NoteCreate` payload. -/
def sampleInp : NoteCreate := { title := "t", content := "c" }

/-- A sample stored document, active, with a given pair of timestamps. -/
def sampleDoc (created updated : Nat) : NoteDoc :=
  { title := "t", content := "c", is_deleted := false, is_pinned := false
    format := "text", color := "primary", created_at := created, updated_at := updated }

/-- A sample soft-deleted stored document. -/
def sampleDocDel (created updated : Nat) : NoteDoc :=
  { sampleDoc created updated with is_deleted := true }

/-- Three active notes for owner `u1`, in store order `nA, nB, nC`, with
`updated_at` values `1 < 2 < 3` (so the most recently updated is last in
store order). -/
def sysThree : Sys :=
  ⟨fun u => if u == "u1" then
      [("nA", sampleDoc 1 1), ("nB", sampleDoc 2 2), ("nC", sampleDoc 3 3)]
    else [], []⟩

/-- One soft-deleted note `n1` for owner `u1`, empty cache. -/
def sysDel : Sys := ⟨fun u => if u == "u1" then [("n1", sampleDocDel 1 2)] else [], []⟩

/-- System state after `create_note` of `n1` (t=1) then `n2` (t=2) for owner
`u1`, starting from the empty system. -/
def sysTwoCreates : Sys :=
  stSys emptySys (OptimizedNoteService.create_note false healthyB
    (stSys emptySys (OptimizedNoteService.create_note false healthyB emptySys sampleInp "u1" "n1" 1))
    sampleInp "u1" "n2" 2)

/-!  ## Theorems  -/

/-!  ### Association list and store lemmas  -/

theorem lookupA_nil (n : String) : lookupA [] n = none := rfl

theorem lookupA_cons (k : String) (v : NoteDoc) (t : Subcoll) (n : String) :
    lookupA ((k, v) :: t) n = if k = n then some v else lookupA t n := by
  by_cases h : k = n <;> simp [lookupA, List.find?_cons, h]

theorem lookupA_setA_self (l : Subcoll) (nid : String) (d : NoteDoc) :
    lookupA (setA l nid d) nid = some d := by
  induction l with
  | nil => simp [setA, lookupA_cons]
  | cons p t ih =>
    obtain ⟨k, v⟩ := p
    by_cases h : k = nid
    · subst h; simp [setA, lookupA_cons]
    · simp [setA, h, lookupA_cons, ih]

theorem lookupA_setA_ne (l : Subcoll) (nid n₂ : String) (d : NoteDoc)
    (h : n₂ ≠ nid) : lookupA (setA l nid d) n₂ = lookupA l n₂ := by
  induction l with
  | nil => simp [setA, lookupA_cons, lookupA_nil, Ne.symm h]
  | cons p t ih =>
    obtain ⟨k, v⟩ := p
    by_cases hk : k = nid
    · subst hk
      simp [setA, lookupA_cons, Ne.symm h]
    · simp [setA, hk, lookupA_cons, ih]

theorem updA_nil (nid : String) (u : UpdateData) : updA [] nid u = [] := rfl

theorem updA_cons (k : String) (v : NoteDoc) (t : Subcoll) (nid : String)
    (u : UpdateData) :
    updA ((k, v) :: t) nid u
      = (if k = nid then (k, applyUpd v u) else (k, v)) :: updA t nid u := by
  by_cases h : k = nid <;> simp [updA, h]

theorem lookupA_updA_self (l : Subcoll) (nid : String) (u : UpdateData)
    (d : NoteDoc) (h : lookupA l nid = some d) :
    lookupA (updA l nid u) nid = some (applyUpd d u) := by
  induction l with
  | nil => simp [lookupA_nil] at h
  | cons p t ih =>
    obtain ⟨k, v⟩ := p
    by_cases hk : k = nid
    · subst hk
      rw [lookupA_cons, if_pos rfl] at h
      cases h
      rw [updA_cons, if_pos rfl, lookupA_cons, if_pos rfl]
    · rw [lookupA_cons, if_neg hk] at h
      rw [updA_cons, if_neg hk, lookupA_cons, if_neg hk]
      exact ih h

theorem lookupA_updA_ne (l : Subcoll) (nid n₂ : String) (u : UpdateData)
    (h : n₂ ≠ nid) : lookupA (updA l nid u) n₂ = lookupA l n₂ := by
  induction l with
  | nil => simp [updA_nil]
  | cons p t ih =>
    obtain ⟨k, v⟩ := p
    by_cases hk : k = nid
    · subst hk
      rw [updA_cons, if_pos rfl, lookupA_cons, if_neg (Ne.symm h),
        lookupA_cons, if_neg (Ne.symm h)]
      exact ih
    · rw [updA_cons, if_neg hk]
      by_cases hk₂ : k = n₂
      · subst hk₂
        rw [lookupA_cons, if_pos rfl, lookupA_cons, if_pos rfl]
      · rw [lookupA_cons, if_neg hk₂, lookupA_cons, if_neg hk₂]
        exact ih

/-!  ### Cache keyspace lemmas  -/

theorem assocFind_nil (k : String) : assocFind [] k = none := rfl

theorem assocFind_cons (a : String) (b : CacheVal) (t : CacheState) (k : String) :
    assocFind ((a, b) :: t) k = if a = k then some b else assocFind t k := by
  by_cases h : a = k <;> simp [assocFind, List.find?_cons, h]

theorem assocFind_assocSet_self (c : CacheState) (k : String) (v : CacheVal) :
    assocFind (assocSet c k v) k = some v := by
  simp [assocSet, assocFind_cons]

theorem assocFind_filter_of_key (c : CacheState) (P : String × CacheVal → Bool)
    (k : String) (h : ∀ v, P (k, v) = true) :
    assocFind (c.filter P) k = assocFind c k := by
  induction c with
  | nil => rfl
  | cons p t ih =>
    obtain ⟨a, b⟩ := p
    by_cases ha : a = k
    · subst ha
      simp [List.filter_cons, h b, assocFind_cons, ih]
    · by_cases hp : P (a, b)
      · simp [List.filter_cons, hp, assocFind_cons, ha, ih]
      · simp only [List.filter_cons, Bool.not_eq_true] at hp ⊢
        simp [hp, assocFind_cons, ha, ih]

theorem assocFind_filter_none (c : CacheState) (P : String × CacheVal → Bool)
    (k : String) (h : ∀ v, P (k, v) = false) :
    assocFind (c.filter P) k = none := by
  induction c with
  | nil => rfl
  | cons p t ih =>
    obtain ⟨a, b⟩ := p
    by_cases ha : a = k
    · subst ha
      simp [List.filter_cons, h b, ih]
    · by_cases hp : P (a, b)
      · simp [List.filter_cons, hp, assocFind_cons, ha, ih]
      · simp only [List.filter_cons, Bool.not_eq_true] at hp ⊢
        simp [hp, assocFind_cons, ha, ih]

theorem assocFind_assocSet_ne (c : CacheState) (k k₂ : String) (v : CacheVal)
    (h : k₂ ≠ k) : assocFind (assocSet c k v) k₂ = assocFind c k₂ := by
  rw [assocSet, assocFind_cons, if_neg (Ne.symm h)]
  exact assocFind_filter_of_key c _ k₂ (fun _ => by simpa [bne] using h)

/-!  ### Healthy-path unfolding lemmas  -/

theorem cs_get_note_miss (c : CacheState) (nid uid : String)
    (h : assocFind c (CacheService.get_note_cache_key nid uid) = none) :
    CacheService.get_note healthyB c nid uid = (none, c) := by
  simp [CacheService.get_note, healthyB, h]

theorem cs_get_notes_miss (c : CacheState) (uid : String) (incDel : Bool)
    (lim off : Nat)
    (h : assocFind c (CacheService.get_notes_cache_key uid incDel lim off) = none) :
    CacheService.get_notes healthyB c uid incDel lim off = (none, c) := by
  simp [CacheService.get_notes, healthyB, h]

theorem cs_get_notes_count_miss (c : CacheState) (uid : String) (incDel : Bool)
    (h : assocFind c (CacheService.get_user_notes_count_key uid incDel) = none) :
    CacheService.get_notes_count healthyB c uid incDel = (none, c) := by
  simp [CacheService.get_notes_count, healthyB, h]

theorem update_sub_ok (st : Store) (uid nid : String) (u : UpdateData)
    (d : NoteDoc) (h : lookupA (st uid) nid = some d) :
    FirestoreService.update_subcollection_document false st uid nid u
      = .ok (some (applyUpd d u),
          fun v => if v == uid then updA (st v) nid u else st v) := by
  simp only [FirestoreService.update_subcollection_document, if_neg (by decide : ¬False), h]
  simp [lookupA_updA_self _ _ _ _ h]

/-- C5: `update_note` on a missing (or foreign) note returns the not-found
sentinel with the system unchanged (no store write); on an existing note it
writes exactly the explicitly provided fields plus a refreshed `updated_at`,
leaves every unset field and `created_at` unchanged, keeps the note under the
same id, and touches no other note and no other owner's sub-collection. -/
theorem update_partial_semantics (sys : Sys) (nid uid : String) (u : NoteUpdate)
    (now : Nat) :
    (lookupA (sys.store uid) nid = none →
      OptimizedNoteService.update_note false healthyB sys nid u uid now
        = .ok (none, sys)) ∧
    (∀ d, lookupA (sys.store uid) nid = some d →
      ∃ n sys₁ d₁,
        OptimizedNoteService.update_note false healthyB sys nid u uid now
          = .ok (some n, sys₁) ∧
        lookupA (sys₁.store uid) nid = some d₁ ∧
        d₁.title = u.title.getD d.title ∧
        d₁.content = u.content.getD d.content ∧
        d₁.is_deleted = u.is_deleted.getD d.is_deleted ∧
        d₁.is_pinned = u.is_pinned.getD d.is_pinned ∧
        d₁.format = u.format.getD d.format ∧
        d₁.color = u.color.getD d.color ∧
        d₁.created_at = d.created_at ∧
        d₁.updated_at = now ∧
        n = noteOfDoc nid uid d₁ ∧
        (∀ n₂, n₂ ≠ nid → lookupA (sys₁.store uid) n₂ = lookupA (sys.store uid) n₂) ∧
        (∀ v, v ≠ uid → sys₁.store v = sys.store v)) := by
  constructor
  · intro h
    simp [OptimizedNoteService.update_note, FirestoreService.get_subcollection_document, h]
  · intro d h
    have heq :
        OptimizedNoteService.update_note false healthyB sys nid u uid now
          = .ok (some (noteOfDoc nid uid (applyUpd d
              { updated_at := some now, title := u.title, content := u.content
                is_deleted := u.is_deleted, is_pinned := u.is_pinned
                format := u.format, color := u.color })),
            ⟨fun v => if v == uid then updA (sys.store v) nid
                { updated_at := some now, title := u.title, content := u.content
                  is_deleted := u.is_deleted, is_pinned := u.is_pinned
                  format := u.format, color := u.color } else sys.store v,
              (CacheService.invalidate_user_notes healthyB
                (CacheService.set_note healthyB sys.cache
                  (noteOfDoc nid uid (applyUpd d
                    { updated_at := some now, title := u.title, content := u.content
                      is_deleted := u.is_deleted, is_pinned := u.is_pinned
                      format := u.format, color := u.color })) none).2 uid).2⟩) := by
      simp only [OptimizedNoteService.update_note,
        FirestoreService.get_subcollection_document, h,
        update_sub_ok _ _ _ _ _ h]
      rfl
    refine ⟨_, _, applyUpd d
        { updated_at := some now, title := u.title, content := u.content
          is_deleted := u.is_deleted, is_pinned := u.is_pinned
          format := u.format, color := u.color },
      heq, ?_, rfl, rfl, rfl, rfl, rfl, rfl, rfl, rfl, rfl, ?_, ?_⟩
    · simpa using lookupA_updA_self _ _ _ _ h
    · intro n₂ hn
      simpa using lookupA_updA_ne _ _ _ _ hn
    · intro v hv
      simp [if_neg (by simpa using hv)]

/-- C5 witness: concrete instantiation on `sysThree` (note `nA` exists; a
title-only update keeps all other fields and refreshes `updated_at`). -/
theorem update_partial_semantics_witness :
    ∃ n sys₁ d₁,
      OptimizedNoteService.update_note false healthyB sysThree "nA"
        { title := some "t2" } "u1" 7 = .ok (some n, sys₁) ∧
      lookupA (sys₁.store "u1") "nA" = some d₁ ∧
      d₁.title = (some "t2").getD (sampleDoc 1 1).title ∧
      d₁.content = none.getD (sampleDoc 1 1).content ∧
      d₁.is_deleted = none.getD (sampleDoc 1 1).is_deleted ∧
      d₁.is_pinned = none.getD (sampleDoc 1 1).is_pinned ∧
      d₁.format = none.getD (sampleDoc 1 1).format ∧
      d₁.color = none.getD (sampleDoc 1 1).color ∧
      d₁.created_at = (sampleDoc 1 1).created_at ∧
      d₁.updated_at = 7 ∧
      n = noteOfDoc "nA" "u1" d₁ ∧
      (∀ n₂, n₂ ≠ "nA" →
        lookupA (sys₁.store "u1") n₂ = lookupA (sysThree.store "u1") n₂) ∧
      (∀ v, v ≠ "u1" → sys₁.store v = sysThree.store v) :=
  (update_partial_semantics sysThree "nA" "u1" { title := some "t2" } 7).2
    (sampleDoc 1 1) rfl

/-- C7: on an existing note, `update_note` and `delete_note` keep the record
under the same id in the same owner's sub-collection with `created_at`
unchanged and other owners' data untouched; `delete_note` does not remove the
record — it survives with `is_deleted=True` and `updated_at` refreshed. -/
theorem update_delete_frame (sys : Sys) (nid uid : String) (u : NoteUpdate)
    (now now₂ : Nat) (d : NoteDoc) (h : lookupA (sys.store uid) nid = some d) :
    (∃ n sys₁ d₁,
      OptimizedNoteService.update_note false healthyB sys nid u uid now
        = .ok (some n, sys₁) ∧
      lookupA (sys₁.store uid) nid = some d₁ ∧
      d₁.created_at = d.created_at ∧
      (∀ v, v ≠ uid → sys₁.store v = sys.store v)) ∧
    (∃ sys₂ d₂,
      OptimizedNoteService.delete_note false healthyB sys nid uid now₂
        = .ok (true, sys₂) ∧
      lookupA (sys₂.store uid) nid = some d₂ ∧
      d₂.is_deleted = true ∧
      d₂.updated_at = now₂ ∧
      d₂.created_at = d.created_at ∧
      d₂.title = d.title ∧
      d₂.content = d.content ∧
      (∀ v, v ≠ uid → sys₂.store v = sys.store v)) := by
  constructor
  · obtain ⟨n, sys₁, d₁, h₁, h₂, _, _, _, _, _, _, h₃, _, _, _, h₄⟩ :=
      (update_partial_semantics sys nid uid u now).2 d h
    exact ⟨n, sys₁, d₁, h₁, h₂, h₃, h₄⟩
  · have heq :
        OptimizedNoteService.delete_note false healthyB sys nid uid now₂
          = .ok (true,
            ⟨fun v => if v == uid then updA (sys.store v) nid
                { is_deleted := some true, updated_at := some now₂ }
              else sys.store v,
              (CacheService.increment_notes_count healthyB
                (CacheService.increment_notes_count healthyB
                  (CacheService.invalidate_user_notes healthyB
                    (CacheService.invalidate_note healthyB sys.cache nid uid).2 uid).2
                  uid false (-1)).2 uid true 1).2⟩) := by
      simp only [OptimizedNoteService.delete_note,
        FirestoreService.get_subcollection_document, h,
        update_sub_ok _ _ _ _ _ h]
      rfl
    refine ⟨_, applyUpd d { is_deleted := some true, updated_at := some now₂ },
      heq, ?_, rfl, rfl, rfl, rfl, rfl, ?_⟩
    · simpa using lookupA_updA_self _ _ _ _ h
    · intro v hv
      simp [if_neg (by simpa using hv)]

/-- C7 witness: concrete instantiation on `sysThree` (update of `nB` with new
content at t=8, delete of `nB` at t=9). -/
theorem update_delete_frame_witness :
    (∃ n sys₁ d₁,
      OptimizedNoteService.update_note false healthyB sysThree "nB"
        { content := some "c2" } "u1" 8 = .ok (some n, sys₁) ∧
      lookupA (sys₁.store "u1") "nB" = some d₁ ∧
      d₁.created_at = (sampleDoc 2 2).created_at ∧
      (∀ v, v ≠ "u1" → sys₁.store v = sysThree.store v)) ∧
    (∃ sys₂ d₂,
      OptimizedNoteService.delete_note false healthyB sysThree "nB" "u1" 9
        = .ok (true, sys₂) ∧
      lookupA (sys₂.store "u1") "nB" = some d₂ ∧
      d₂.is_deleted = true ∧
      d₂.updated_at = 9 ∧
      d₂.created_at = (sampleDoc 2 2).created_at ∧
      d₂.title = (sampleDoc 2 2).title ∧
      d₂.content = (sampleDoc 2 2).content ∧
      (∀ v, v ≠ "u1" → sys₂.store v = sysThree.store v)) :=
  update_delete_frame sysThree "nB" "u1" { content := some "c2" } 8 9
    (sampleDoc 2 2) rfl

/-- C10: `get_note` applies no `is_deleted` filter — on a cache miss, a stored
note with `is_deleted=True` in the owner's sub-collection is returned (as a
`Note` carrying `is_deleted=True` under its id), not the not-found sentinel. -/
theorem get_returns_soft_deleted (sys : Sys) (nid uid : String) (d : NoteDoc)
    (hc : assocFind sys.cache (CacheService.get_note_cache_key nid uid) = none)
    (hs : lookupA (sys.store uid) nid = some d) (hd : d.is_deleted = true) :
    ∃ sys₁,
      OptimizedNoteService.get_note false healthyB sys nid uid
        = .ok (some (noteOfDoc nid uid d), sys₁) ∧
      (noteOfDoc nid uid d).is_deleted = true ∧
      (noteOfDoc nid uid d).id = nid := by
  refine ⟨⟨sys.store,
      (CacheService.set_note healthyB sys.cache (noteOfDoc nid uid d) none).2⟩,
    ?_, by simp [noteOfDoc, hd], rfl⟩
  simp only [OptimizedNoteService.get_note, cs_get_note_miss _ _ _ hc,
    FirestoreService.get_subcollection_document, hs]
  rfl

/-- C10 witness: concrete instantiation on `sysDel` (soft-deleted note `n1`). -/
theorem get_returns_soft_deleted_witness :
    ∃ sys₁,
      OptimizedNoteService.get_note false healthyB sysDel "n1" "u1"
        = .ok (some (noteOfDoc "n1" "u1" (sampleDocDel 1 2)), sys₁) ∧
      (noteOfDoc "n1" "u1" (sampleDocDel 1 2)).is_deleted = true ∧
      (noteOfDoc "n1" "u1" (sampleDocDel 1 2)).id = "n1" :=
  get_returns_soft_deleted sysDel "n1" "u1" (sampleDocDel 1 2) rfl rfl rfl

/-!  ### Invalidation lemmas  -/

theorem assocFind_some_key_mem (c : CacheState) (kk : String) (v : CacheVal)
    (hf : assocFind c kk = some v) : kk ∈ c.map (·.1) := by
  induction c with
  | nil => simp [assocFind_nil] at hf
  | cons p t ih =>
    obtain ⟨a, b⟩ := p
    rw [assocFind_cons] at hf
    by_cases ha : a = kk
    · simp [ha]
    · rw [if_neg ha] at hf
      simp [ih hf]

theorem ite_ok_ok {α : Type} (b : Bool) (x y : α) :
    (if b = true then (Except.ok x : Except Unit α) else Except.ok y)
      = Except.ok (if b = true then x else y) := by
  cases b <;> rfl

theorem healthyB_bkeys (c : CacheState) (pat : String) :
    healthyB.bkeys c pat
      = .ok ((c.map (·.1)).filter (fun k => patMatch pat k), c) := rfl

theorem healthyB_bdel (c : CacheState) (ks : List String) :
    healthyB.bdel c ks = .ok (c.filter (fun kv => !ks.contains kv.1)) := rfl

theorem inv_user_notes_healthy (c : CacheState) (uid : String) :
    CacheService.invalidate_user_notes healthyB c uid
      = (true, delMatching (delMatching c ("notes:user:" ++ uid ++ ":*"))
          ("notes_count:user:" ++ uid ++ ":*")) := by
  simp only [CacheService.invalidate_user_notes, healthyB_bkeys, healthyB_bdel,
    ite_ok_ok]
  rfl

theorem inv_note_healthy (c : CacheState) (nid uid : String) :
    CacheService.invalidate_note healthyB c nid uid
      = (true, delMatching (delMatching
          (c.filter (fun kv => !([CacheService.get_note_cache_key nid uid].contains kv.1)))
          ("notes:user:" ++ uid ++ ":*")) ("notes_count:user:" ++ uid ++ ":*")) := by
  simp only [CacheService.invalidate_note, healthyB_bdel, inv_user_notes_healthy]

theorem delMatching_clears (c : CacheState) (pat kk : String)
    (hm : patMatch pat kk = true) : assocFind (delMatching c pat) kk = none := by
  have hnone : ((c.map (·.1)).filter (fun k => patMatch pat k)) = [] →
      assocFind c kk = none := by
    intro hempty
    cases hf : assocFind c kk with
    | none => rfl
    | some v =>
      have hmem : kk ∈ (c.map (·.1)).filter (fun k => patMatch pat k) :=
        List.mem_filter.2 ⟨assocFind_some_key_mem c kk v hf, hm⟩
      rw [hempty] at hmem
      cases hmem
  show assocFind (if ((c.map (·.1)).filter (fun k => patMatch pat k)).isEmpty = true
      then c
      else c.filter
        (fun kv => !((c.map (·.1)).filter (fun k => patMatch pat k)).contains kv.1)) kk
    = none
  split
  · next hemp => exact hnone (List.isEmpty_iff.1 hemp)
  · next hemp =>
    by_cases hin : kk ∈ (c.map (·.1)).filter (fun k => patMatch pat k)
    · apply assocFind_filter_none
      intro v
      have hc : ((c.map (·.1)).filter (fun k => patMatch pat k)).contains kk = true :=
        List.elem_iff.mpr hin
      simp only [hc, Bool.not_true]
    · rw [assocFind_filter_of_key]
      · cases hf : assocFind c kk with
        | none => rfl
        | some v =>
          exact absurd (List.mem_filter.2 ⟨assocFind_some_key_mem c kk v hf, hm⟩) hin
      · intro v
        have hc : ((c.map (·.1)).filter (fun k => patMatch pat k)).contains kk = false := by
          cases hcc : ((c.map (·.1)).filter (fun k => patMatch pat k)).contains kk with
          | false => rfl
          | true => exact absurd (List.elem_iff.mp hcc) hin
        simp only [hc, Bool.not_false]

theorem isPrefixOf_append_self (l t : List Char) : l.isPrefixOf (l ++ t) = true := by
  rw [List.isPrefixOf_iff_prefix]
  exact List.prefix_append l t

theorem patMatch_of_data (pre key : String) (rest : List Char)
    (h : key.data = pre.data ++ ':' :: rest) : patMatch (pre ++ ":*") key = true := by
  unfold patMatch patPrefixOf
  rw [String.data_append, show (":*" : String).data = [':', '*'] from rfl,
    show pre.data ++ [':', '*'] = (pre.data ++ [':']) ++ ['*'] by simp,
    List.dropLast_concat, h,
    show pre.data ++ ':' :: rest = (pre.data ++ [':']) ++ rest by simp]
  exact isPrefixOf_append_self _ _

theorem countKey_matches (uid : String) (b : Bool) :
    patMatch ("notes_count:user:" ++ uid ++ ":*")
      (CacheService.get_user_notes_count_key uid b) = true := by
  apply patMatch_of_data _ _ (("deleted:" : String).data ++ (pyBool b).data)
  rw [CacheService.get_user_notes_count_key]
  simp only [String.data_append,
    show (":deleted:" : String).data = ':' :: ("deleted:" : String).data from rfl,
    List.append_assoc]
  rfl

theorem countKey_false_ne_true (uid : String) :
    CacheService.get_user_notes_count_key uid false
      ≠ CacheService.get_user_notes_count_key uid true := by
  intro h
  have h2 := congrArg String.data h
  simp only [CacheService.get_user_notes_count_key, String.data_append] at h2
  exact absurd (List.append_cancel_left h2) (by decide)

theorem incr_missing (c : CacheState) (uid : String) (b : Bool) (delta : Int)
    (h : assocFind c (CacheService.get_user_notes_count_key uid b) = none) :
    CacheService.increment_notes_count healthyB c uid b delta
      = (true, assocSet c (CacheService.get_user_notes_count_key uid b) (.vint delta)) := by
  simp [CacheService.increment_notes_count, healthyB, h]

/-- The counter-and-store effect of one healthy `delete_note` on an existing
note: success, soft-deleted store record, and — because `invalidate_note` and
`invalidate_user_notes` have just deleted both count keys — counter values
equal to the freshly applied adjustment (`-1` active, `+1` deleted). -/
theorem delete_note_spec (sys : Sys) (nid uid : String) (now : Nat) (d : NoteDoc)
    (h : lookupA (sys.store uid) nid = some d) :
    ∃ c₄,
      OptimizedNoteService.delete_note false healthyB sys nid uid now
        = .ok (true, ⟨fun v => if v == uid then updA (sys.store v) nid
            { is_deleted := some true, updated_at := some now } else sys.store v, c₄⟩) ∧
      assocFind c₄ (CacheService.get_user_notes_count_key uid false) = some (.vint (-1)) ∧
      assocFind c₄ (CacheService.get_user_notes_count_key uid true) = some (.vint 1) := by
  have e₂ := inv_user_notes_healthy
    (CacheService.invalidate_note healthyB sys.cache nid uid).2 uid
  have hact : assocFind (delMatching (delMatching
      (CacheService.invalidate_note healthyB sys.cache nid uid).2
      ("notes:user:" ++ uid ++ ":*")) ("notes_count:user:" ++ uid ++ ":*"))
      (CacheService.get_user_notes_count_key uid false) = none :=
    delMatching_clears _ _ _ (countKey_matches uid false)
  have e₃ := incr_missing _ uid false (-1) hact
  have hdel2 : assocFind (assocSet (delMatching (delMatching
      (CacheService.invalidate_note healthyB sys.cache nid uid).2
      ("notes:user:" ++ uid ++ ":*")) ("notes_count:user:" ++ uid ++ ":*"))
      (CacheService.get_user_notes_count_key uid false) (.vint (-1)))
      (CacheService.get_user_notes_count_key uid true) = none := by
    rw [assocFind_assocSet_ne _ _ _ _ (Ne.symm (countKey_false_ne_true uid))]
    exact delMatching_clears _ _ _ (countKey_matches uid true)
  have e₄ := incr_missing _ uid true 1 hdel2
  refine ⟨assocSet (assocSet (delMatching (delMatching
      (CacheService.invalidate_note healthyB sys.cache nid uid).2
      ("notes:user:" ++ uid ++ ":*")) ("notes_count:user:" ++ uid ++ ":*"))
      (CacheService.get_user_notes_count_key uid false) (.vint (-1)))
      (CacheService.get_user_notes_count_key uid true) (.vint 1), ?_, ?_, ?_⟩
  · simp only [OptimizedNoteService.delete_note,
      FirestoreService.get_subcollection_document, h, update_sub_ok _ _ _ _ _ h,
      e₂, e₃, e₄]
    rfl
  · rw [assocFind_assocSet_ne _ _ _ _ (countKey_false_ne_true uid)]
    exact assocFind_assocSet_self _ _ _
  · exact assocFind_assocSet_self _ _ _

/-- C8: deleting an existing note twice succeeds both times: the second call
still finds the note (now with `is_deleted=True`), re-applies the soft delete,
returns success, and re-applies the counter adjustments a second time — each
call's adjustments land on freshly invalidated count keys (its own
`invalidate_note`/`invalidate_user_notes` delete them first), leaving the
active count at `-1` and the deleted count at `+1` after each call. -/
theorem double_delete_succeeds (sys : Sys) (nid uid : String) (now₁ now₂ : Nat)
    (d : NoteDoc) (h : lookupA (sys.store uid) nid = some d) :
    ∃ sys₁ sys₂,
      OptimizedNoteService.delete_note false healthyB sys nid uid now₁
        = .ok (true, sys₁) ∧
      (lookupA (sys₁.store uid) nid).map NoteDoc.is_deleted = some true ∧
      OptimizedNoteService.delete_note false healthyB sys₁ nid uid now₂
        = .ok (true, sys₂) ∧
      (lookupA (sys₂.store uid) nid).map NoteDoc.is_deleted = some true ∧
      assocFind sys₁.cache (CacheService.get_user_notes_count_key uid false)
        = some (.vint (-1)) ∧
      assocFind sys₁.cache (CacheService.get_user_notes_count_key uid true)
        = some (.vint 1) ∧
      assocFind sys₂.cache (CacheService.get_user_notes_count_key uid false)
        = some (.vint (-1)) ∧
      assocFind sys₂.cache (CacheService.get_user_notes_count_key uid true)
        = some (.vint 1) := by
  obtain ⟨c₄, e₁, f₁, f₂⟩ := delete_note_spec sys nid uid now₁ d h
  have h₁ : lookupA ((fun v => if v == uid then updA (sys.store v) nid
      { is_deleted := some true, updated_at := some now₁ } else sys.store v) uid) nid
      = some (applyUpd d { is_deleted := some true, updated_at := some now₁ }) := by
    simpa using lookupA_updA_self _ _ _ _ h
  obtain ⟨c₄₂, e₂, g₁, g₂⟩ := delete_note_spec
    ⟨fun v => if v == uid then updA (sys.store v) nid
        { is_deleted := some true, updated_at := some now₁ } else sys.store v, c₄⟩
    nid uid now₂ _ h₁
  refine ⟨_, _, e₁,
    by simpa [applyUpd] using congrArg (Option.map NoteDoc.is_deleted) h₁,
    e₂, ?_, f₁, f₂, g₁, g₂⟩
  have h₂ := lookupA_updA_self _ nid
    { is_deleted := some true, updated_at := some now₂ } _ h₁
  simpa [applyUpd] using congrArg (Option.map NoteDoc.is_deleted) h₂

/-- C8 witness: concrete double delete of `nA` on `sysThree`. -/
theorem double_delete_succeeds_witness :
    ∃ sys₁ sys₂,
      OptimizedNoteService.delete_note false healthyB sysThree "nA" "u1" 10
        = .ok (true, sys₁) ∧
      (lookupA (sys₁.store "u1") "nA").map NoteDoc.is_deleted = some true ∧
      OptimizedNoteService.delete_note false healthyB sys₁ "nA" "u1" 11
        = .ok (true, sys₂) ∧
      (lookupA (sys₂.store "u1") "nA").map NoteDoc.is_deleted = some true ∧
      assocFind sys₁.cache (CacheService.get_user_notes_count_key "u1" false)
        = some (.vint (-1)) ∧
      assocFind sys₁.cache (CacheService.get_user_notes_count_key "u1" true)
        = some (.vint 1) ∧
      assocFind sys₂.cache (CacheService.get_user_notes_count_key "u1" false)
        = some (.vint (-1)) ∧
      assocFind sys₂.cache (CacheService.get_user_notes_count_key "u1" true)
        = some (.vint 1) :=
  double_delete_succeeds sysThree "nA" "u1" 10 11 (sampleDoc 1 1) rfl

/-- C3: every Cache Layer operation degrades a cache-backend failure to its
benign return value — reads (`get_notes`, `get_note`, `get_notes_count`)
return the miss value `none`, writes (`set_notes`, `set_note`,
`invalidate_user_notes`, `invalidate_note`, `set_notes_count`,
`increment_notes_count`) return `False` — and no exception propagates to the
caller (each operation is a total function into its normal result type; key
derivation is a pure function of its parameters and has no failure mode). -/
theorem cache_failure_benign (c : CacheState) (uid nid : String) (incDel : Bool)
    (lim off : Nat) (notes : List Note) (note : Note) (cnt delta : Int)
    (ttl : Option Nat) :
    CacheService.get_notes failB c uid incDel lim off = (none, c) ∧
    CacheService.set_notes failB c uid notes incDel lim off ttl = (false, c) ∧
    CacheService.get_note failB c nid uid = (none, c) ∧
    CacheService.set_note failB c note ttl = (false, c) ∧
    CacheService.invalidate_user_notes failB c uid = (false, c) ∧
    CacheService.invalidate_note failB c nid uid = (false, c) ∧
    CacheService.get_notes_count failB c uid incDel = (none, c) ∧
    CacheService.set_notes_count failB c uid cnt incDel ttl = (false, c) ∧
    CacheService.increment_notes_count failB c uid incDel delta = (false, c) :=
  ⟨rfl, rfl, rfl, rfl, rfl, rfl, rfl, rfl, rfl⟩

/-!  ### Decimal rendering lemmas (for cache-key injectivity)  -/

theorem natDecimalAux_acc (fuel : Nat) : ∀ (n : Nat) (acc : List Char),
    natDecimalAux fuel n acc = natDecimalAux fuel n [] ++ acc := by
  induction fuel with
  | zero => intro n acc; rfl
  | succ fuel ih =>
    intro n acc
    by_cases h : n < 10
    · simp [natDecimalAux, h]
    · simp only [natDecimalAux, if_neg h]
      rw [ih (n / 10) (digitChar (n % 10) :: acc),
        ih (n / 10) [digitChar (n % 10)], List.append_assoc]
      rfl

theorem natDecimalAux_fuel (f : Nat) : ∀ (g n : Nat) (acc : List Char),
    0 < f → n < 10 ^ f → 0 < g → n < 10 ^ g →
    natDecimalAux f n acc = natDecimalAux g n acc := by
  induction f with
  | zero => intro g n acc hf; omega
  | succ f ih =>
    intro g n acc _ hnf hg hng
    cases g with
    | zero => omega
    | succ g =>
      by_cases h : n < 10
      · simp [natDecimalAux, h]
      · simp only [natDecimalAux, if_neg h]
        have hf' : 0 < f := by
          rcases Nat.eq_zero_or_pos f with h0 | h0
          · subst h0; simp at hnf; omega
          · exact h0
        have hg' : 0 < g := by
          rcases Nat.eq_zero_or_pos g with h0 | h0
          · subst h0; simp at hng; omega
          · exact h0
        have hdf : n / 10 < 10 ^ f := by
          rw [Nat.div_lt_iff_lt_mul (by norm_num)]
          calc n < 10 ^ (f + 1) := hnf
            _ = 10 ^ f * 10 := by ring
        have hdg : n / 10 < 10 ^ g := by
          rw [Nat.div_lt_iff_lt_mul (by norm_num)]
          calc n < 10 ^ (g + 1) := hng
            _ = 10 ^ g * 10 := by ring
        exact ih g (n / 10) _ hf' hdf hg' hdg

theorem lt_ten_pow_succ_self (n : Nat) : n < 10 ^ (n + 1) :=
  lt_of_lt_of_le (Nat.lt_pow_self (by norm_num) n)
    (Nat.pow_le_pow_right (by norm_num) (Nat.le_succ n))

theorem natDigits_lt (n : Nat) (h : n < 10) : natDigits n = [digitChar n] := by
  simp [natDigits, natDecimalAux, h]

theorem natDigits_ge (n : Nat) (h : 10 ≤ n) :
    natDigits n = natDigits (n / 10) ++ [digitChar (n % 10)] := by
  have h10 : ¬ n < 10 := by omega
  rw [natDigits, natDecimalAux, if_neg h10,
    natDecimalAux_acc n (n / 10) [digitChar (n % 10)]]
  congr 1
  rw [natDigits]
  exact natDecimalAux_fuel n (n / 10 + 1) (n / 10) [] (by omega)
    (lt_of_le_of_lt (Nat.div_le_self n 10) (Nat.lt_pow_self (by norm_num) n))
    (by omega) (lt_ten_pow_succ_self (n / 10))

theorem natDigits_mem (n : Nat) : ∀ c ∈ natDigits n, ∃ d, d < 10 ∧ c = digitChar d := by
  induction n using Nat.strong_induction_on with
  | _ n ih =>
    intro c hc
    by_cases h : n < 10
    · rw [natDigits_lt n h] at hc
      simp at hc
      exact ⟨n, h, hc⟩
    · rw [natDigits_ge n (by omega)] at hc
      rcases List.mem_append.1 hc with hm | hm
      · exact ih (n / 10) (Nat.div_lt_self (by omega) (by norm_num)) c hm
      · simp at hm
        exact ⟨n % 10, Nat.mod_lt n (by norm_num), hm⟩

theorem digitChar_ne_colon (d : Nat) (h : d < 10) : digitChar d ≠ ':' := by
  interval_cases d <;> decide

theorem natDigits_no_colon (n : Nat) : ':' ∉ natDigits n := by
  intro hmem
  obtain ⟨d, hd, hc⟩ := natDigits_mem n ':' hmem
  exact digitChar_ne_colon d hd hc.symm

theorem digitsVal_append_digit (l : List Char) (c : Char) :
    digitsVal (l ++ [c]) = 10 * digitsVal l + (c.toNat - 48) := by
  simp [digitsVal, List.foldl_append]

theorem digitChar_val (d : Nat) (h : d < 10) : (digitChar d).toNat - 48 = d := by
  interval_cases d <;> decide

theorem digitsVal_natDigits (n : Nat) : digitsVal (natDigits n) = n := by
  induction n using Nat.strong_induction_on with
  | _ n ih =>
    by_cases h : n < 10
    · rw [natDigits_lt n h]
      simp [digitsVal, digitChar_val n h]
    · rw [natDigits_ge n (by omega), digitsVal_append_digit,
        ih (n / 10) (Nat.div_lt_self (by omega) (by norm_num)),
        digitChar_val (n % 10) (Nat.mod_lt n (by norm_num))]
      exact Nat.div_add_mod n 10

theorem natDigits_injective (a b : Nat) (h : natDigits a = natDigits b) : a = b := by
  rw [← digitsVal_natDigits a, h, digitsVal_natDigits]

theorem pyBool_no_colon (b : Bool) : ':' ∉ (pyBool b).data := by
  cases b <;> decide

theorem pyBool_data_inj (a b : Bool) (h : (pyBool a).data = (pyBool b).data) :
    a = b := by
  cases a <;> cases b <;> revert h <;> decide

/-!  ### Splitting at the last separator  -/

theorem sep_split_aux {a₁ a₂ x₁ x₂ : List Char}
    (h : a₁ ++ ':' :: x₁ = a₂ ++ ':' :: x₂) (h₂ : ':' ∉ x₂)
    (hlt : x₁.length < x₂.length) : False := by
  have s₁ : (':' :: x₁) <:+ (a₂ ++ ':' :: x₂) := ⟨a₁, h⟩
  have s₂ : (':' :: x₂) <:+ (a₂ ++ ':' :: x₂) := ⟨a₂, rfl⟩
  have s₃ : (':' :: x₁) <:+ (':' :: x₂) :=
    List.suffix_of_suffix_length_le s₁ s₂ (by simp; omega)
  have s₄ : (':' :: x₁) <:+ x₂ := by
    rcases List.suffix_cons_iff.1 s₃ with heq | hsuf
    · have := congrArg List.length heq
      simp at this
      omega
    · exact hsuf
  exact h₂ (s₄.subset (by simp))

/-- If two decompositions of the same character list both put a `':'` that is
the last colon of the list (nothing after it contains `':'`), the
decompositions coincide. -/
theorem sep_split {a₁ a₂ x₁ x₂ : List Char}
    (h : a₁ ++ ':' :: x₁ = a₂ ++ ':' :: x₂) (h₁ : ':' ∉ x₁) (h₂ : ':' ∉ x₂) :
    a₁ = a₂ ∧ x₁ = x₂ := by
  have hlen : x₁.length = x₂.length := by
    rcases Nat.lt_trichotomy x₁.length x₂.length with hlt | heq | hgt
    · exact absurd (sep_split_aux h h₂ hlt) (by simp)
    · exact heq
    · exact absurd (sep_split_aux h.symm h₁ hgt) (by simp)
  obtain ⟨ha, hx⟩ := List.append_inj' h (by simp [hlen])
  refine ⟨ha, ?_⟩
  injection hx

/-- The list-cache key split at each of its colon separators, grouped for
right-to-left peeling at the last colon of each residue. -/
theorem notes_key_data (u : String) (b : Bool) (l o : Nat) :
    (CacheService.get_notes_cache_key u b l o).data
      = ("notes:user:" : String).data ++ u.data
          ++ ':' :: ("deleted" : String).data
          ++ ':' :: (pyBool b).data
          ++ ':' :: ("limit" : String).data
          ++ ':' :: natDigits l
          ++ ':' :: ("offset" : String).data
          ++ ':' :: natDigits o := by
  simp only [CacheService.get_notes_cache_key, String.data_append,
    show (":deleted:" : String).data
      = ':' :: (("deleted" : String).data ++ [':']) from rfl,
    show (":limit:" : String).data
      = ':' :: (("limit" : String).data ++ [':']) from rfl,
    show (":offset:" : String).data
      = ':' :: (("offset" : String).data ++ [':']) from rfl,
    show ∀ x, (natDecimal x).data = natDigits x from fun _ => rfl,
    List.append_assoc, List.cons_append, List.singleton_append,
    List.nil_append, List.append_nil]

/-- C9: the three cache key derivation functions are deterministic — equal
parameters give equal key strings (they are pure functions of exactly their
parameters) — and the list-key function is moreover injective: two parameter
tuples produce the same key string exactly when they are equal.  (Injectivity
holds even for owner ids containing `':'`, because the bool and the two
decimal renderings after the structural separators contain no colon, so the
key parses uniquely from the right.) -/
theorem cache_key_deterministic_injective :
    (∀ (n₁ u₁ n₂ u₂ : String), n₁ = n₂ → u₁ = u₂ →
      CacheService.get_note_cache_key n₁ u₁
        = CacheService.get_note_cache_key n₂ u₂) ∧
    (∀ (u₁ u₂ : String) (b₁ b₂ : Bool), u₁ = u₂ → b₁ = b₂ →
      CacheService.get_user_notes_count_key u₁ b₁
        = CacheService.get_user_notes_count_key u₂ b₂) ∧
    (∀ (u₁ u₂ : String) (b₁ b₂ : Bool) (l₁ l₂ o₁ o₂ : Nat),
      CacheService.get_notes_cache_key u₁ b₁ l₁ o₁
          = CacheService.get_notes_cache_key u₂ b₂ l₂ o₂
        ↔ (u₁ = u₂ ∧ b₁ = b₂ ∧ l₁ = l₂ ∧ o₁ = o₂)) := by
  refine ⟨fun n₁ u₁ n₂ u₂ h1 h2 => by rw [h1, h2],
    fun u₁ u₂ b₁ b₂ h1 h2 => by rw [h1, h2],
    fun u₁ u₂ b₁ b₂ l₁ l₂ o₁ o₂ => ⟨?_, ?_⟩⟩
  · intro h
    have hd := congrArg String.data h
    rw [notes_key_data, notes_key_data] at hd
    obtain ⟨hd, hno⟩ := sep_split hd (natDigits_no_colon o₁) (natDigits_no_colon o₂)
    obtain ⟨hd, -⟩ := sep_split hd (by decide) (by decide)
    obtain ⟨hd, hnl⟩ := sep_split hd (natDigits_no_colon l₁) (natDigits_no_colon l₂)
    obtain ⟨hd, -⟩ := sep_split hd (by decide) (by decide)
    obtain ⟨hd, hpb⟩ := sep_split hd (pyBool_no_colon b₁) (pyBool_no_colon b₂)
    obtain ⟨hd, -⟩ := sep_split hd (by decide) (by decide)
    have hu : u₁.data = u₂.data := List.append_cancel_left hd
    refine ⟨?_, pyBool_data_inj _ _ hpb, natDigits_injective _ _ hnl,
      natDigits_injective _ _ hno⟩
    cases u₁
    cases u₂
    exact congrArg String.mk (by simpa using hu)
  · rintro ⟨rfl, rfl, rfl, rfl⟩
    rfl

/-- C9 witness: determinism of the three key functions at concrete inputs,
and both directions of list-key injectivity at a concrete tuple. -/
theorem cache_key_deterministic_injective_witness :
    CacheService.get_note_cache_key "n1" "u1"
      = CacheService.get_note_cache_key "n1" "u1" ∧
    CacheService.get_user_notes_count_key "u1" false
      = CacheService.get_user_notes_count_key "u1" false ∧
    CacheService.get_notes_cache_key "u1" true 20 10
      = CacheService.get_notes_cache_key "u1" true 20 10 ∧
    (("u1" : String) = "u1" ∧ true = true ∧ 20 = 20 ∧ 10 = 10) :=
  ⟨cache_key_deterministic_injective.1 "n1" "u1" "n1" "u1" rfl rfl,
   cache_key_deterministic_injective.2.1 "u1" "u1" false false rfl rfl,
   (cache_key_deterministic_injective.2.2 "u1" "u1" true true 20 20 10 10).mpr
     ⟨rfl, rfl, rfl, rfl⟩,
   (cache_key_deterministic_injective.2.2 "u1" "u1" true true 20 20 10 10).mp rfl⟩

/-- C1 (code bug): starting from the empty system, after two successful
creates for owner `u1` with store and cache healthy throughout,
`get_notes_count(u1, include_deleted=False)` returns `1`, not `2`: each
`create_note` calls `invalidate_user_notes` — which deletes the count keys —
immediately before `increment_notes_count`, so the counter never accumulates.
The store holds exactly `2` matching records, and once the count cache entry
is removed (expired) the next count call recomputes the exact value `2`. -/
theorem count_cache_never_accumulates :
    countVal (OptimizedNoteService.get_notes_count false healthyB sysTwoCreates
      "u1" false) = 1 ∧
    ((sysTwoCreates.store "u1").filter (fun p => !p.2.is_deleted)).length = 2 ∧
    countVal (OptimizedNoteService.get_notes_count false healthyB
      ⟨sysTwoCreates.store, removeKey sysTwoCreates.cache
        (CacheService.get_user_notes_count_key "u1" false)⟩ "u1" false) = 2 :=
  ⟨rfl, rfl, rfl⟩

/-!  ### Sorting and pagination lemmas  -/

theorem sortByDesc_sorted_fix (key : α → Nat) (l : List α)
    (h : SortedDesc key l) : sortByDesc key l = l := by
  induction l with
  | nil => rfl
  | cons x xs ih =>
    rw [sortByDesc, ih (List.Pairwise.of_cons h)]
    cases xs with
    | nil => rfl
    | cons y ys =>
      have hxy : key y ≤ key x := (List.pairwise_cons.1 h).1 y (by simp)
      rw [insertByDesc, if_neg (Nat.not_lt.2 hxy)]

/-- C2 (amended): on a list cache miss, for an owner whose stored matching
notes have pairwise distinct `updated_at` values, `get_notes` returns the
notes ranked `offset+1 .. offset+limit` by `updated_at` descending —
*provided* the matching records come back from the store already in
`updated_at`-descending order, or at most `limit + offset` of them exist.
(The store query truncates to `limit + offset` records before the manual
sort, so without one of these conditions the page is computed over the wrong
records; see the counterexample.) -/
theorem list_pagination_amended (sys : Sys) (uid : String) (incDel : Bool)
    (lim off : Nat)
    (hc : assocFind sys.cache
      (CacheService.get_notes_cache_key uid incDel lim off) = none)
    (_hdist : (matchingDocs sys.store uid incDel).Pairwise
      (fun a b => a.2.updated_at ≠ b.2.updated_at))
    (hord : SortedDesc (fun p => p.2.updated_at) (matchingDocs sys.store uid incDel)
      ∨ (matchingDocs sys.store uid incDel).length ≤ lim + off) :
    ∃ sys₁,
      OptimizedNoteService.get_notes false healthyB sys uid incDel lim off
        = .ok ((((sortByDesc (fun p => p.2.updated_at)
            (matchingDocs sys.store uid incDel)).drop off).take lim).map
              (fun p => noteOfDoc p.1 uid p.2), sys₁) := by
  have hq : FirestoreService.query_subcollection false sys.store uid
      (mkFilters incDel) (lim + off)
      = .ok (if lim + off = 0 then matchingDocs sys.store uid incDel
          else (matchingDocs sys.store uid incDel).take (lim + off)) := rfl
  have hlist :
      (if off > 0
        then (sortByDesc (fun p => p.2.updated_at)
          (if lim + off = 0 then matchingDocs sys.store uid incDel
            else (matchingDocs sys.store uid incDel).take (lim + off))).drop off
        else sortByDesc (fun p => p.2.updated_at)
          (if lim + off = 0 then matchingDocs sys.store uid incDel
            else (matchingDocs sys.store uid incDel).take (lim + off))).take lim
      = ((sortByDesc (fun p => p.2.updated_at)
          (matchingDocs sys.store uid incDel)).drop off).take lim := by
    by_cases h0 : lim + off = 0
    · have hl0 : lim = 0 := by omega
      simp [hl0]
    · rw [if_neg h0]
      rcases hord with hsort | hlen
      · rw [sortByDesc_sorted_fix _ _ hsort,
          sortByDesc_sorted_fix _ _
            (List.Pairwise.sublist (List.take_sublist _ _) hsort)]
        by_cases hoff : off > 0
        · rw [if_pos hoff]
          have hlen₂ : (((matchingDocs sys.store uid incDel).take
              (lim + off)).drop off).length ≤ lim := by
            simp only [List.length_drop, List.length_take]
            omega
          rw [List.take_of_length_le hlen₂, List.take_drop,
            Nat.add_comm off lim]
        · have hoff0 : off = 0 := by omega
          subst hoff0
          simp [List.take_take]
      · rw [List.take_of_length_le hlen]
        by_cases hoff : off > 0
        · rw [if_pos hoff]
        · have hoff0 : off = 0 := by omega
          subst hoff0
          simp
  refine ⟨⟨sys.store, (CacheService.set_notes healthyB sys.cache uid
      ((((sortByDesc (fun p => p.2.updated_at)
        (matchingDocs sys.store uid incDel)).drop off).take lim).map
          (fun p => noteOfDoc p.1 uid p.2)) incDel lim off none).2⟩, ?_⟩
  simp only [OptimizedNoteService.get_notes, cs_get_notes_miss _ _ _ _ _ hc,
    hq, hlist]

/-- C2 amended witness: on `sysThree` all three matching notes fit within
`limit + offset = 10`, so page 1 of size 10 is exactly the full descending
ranking. -/
theorem list_pagination_amended_witness :
    ∃ sys₁,
      OptimizedNoteService.get_notes false healthyB sysThree "u1" false 10 0
        = .ok ((((sortByDesc (fun p => p.2.updated_at)
            (matchingDocs sysThree.store "u1" false)).drop 0).take 10).map
              (fun p => noteOfDoc p.1 "u1" p.2), sys₁) :=
  list_pagination_amended sysThree "u1" false 10 0 rfl (by decide)
    (Or.inr (by decide))

/-- C2 (counterexample): owner `u1` has three active notes with pairwise
distinct `updated_at` values `1, 2, 3`, stored in ascending update order; on a
cache miss, `get_notes(u1, include_deleted=False, limit=1, offset=1)` returns
the note `nA` (rank 3 by `updated_at` descending) instead of the rank-2 note
`nB`: the store query truncates to `limit + offset` records *before* the
manual `updated_at` sort, so the page is computed over the wrong records. -/
theorem list_pagination_wrong_page :
    idsOf (OptimizedNoteService.get_notes false healthyB sysThree "u1" false 1 1)
      = ["nA"] ∧
    (((sortByDesc (fun p => p.2.updated_at)
        (matchingDocs sysThree.store "u1" false)).drop 1).take 1).map (·.1)
      = ["nB"] ∧
    ("nA" : String) ≠ "nB" :=
  ⟨rfl, rfl, by decide⟩

/-- C4 (counterexample): with the authoritative store failing and the count
key absent from the cache, `get_notes_count` does not surface an operation
failure — its `except` clause returns the normal-looking count `0`. -/
theorem count_swallows_store_failure :
    OptimizedNoteService.get_notes_count true healthyB emptySys "u1" false
      = .ok (0, emptySys) ∧
    OptimizedNoteService.get_notes_count true healthyB emptySys "u1" false
      ≠ .error () :=
  ⟨rfl, fun h => nomatch h⟩

/-!  ### Store invariance of the read operations  -/

theorem stSys_get_note (sys : Sys) (nid uid : String) :
    (stSys sys (OptimizedNoteService.get_note false healthyB sys nid uid)).store
      = sys.store := by
  unfold OptimizedNoteService.get_note
  rcases hcg : CacheService.get_note healthyB sys.cache nid uid with ⟨o, c₁⟩
  cases o with
  | some n => rfl
  | none =>
    show (stSys sys (match FirestoreService.get_subcollection_document false
        sys.store uid nid with
      | .error _ => .error ()
      | .ok none => .ok (none, ⟨sys.store, c₁⟩)
      | .ok (some d) =>
        .ok (some (noteOfDoc nid uid d), ⟨sys.store,
          (CacheService.set_note healthyB c₁ (noteOfDoc nid uid d) none).2⟩))).store
      = sys.store
    rw [show FirestoreService.get_subcollection_document false sys.store uid nid
      = .ok (lookupA (sys.store uid) nid) from rfl]
    cases lookupA (sys.store uid) nid <;> rfl

theorem stSys_get_notes (sys : Sys) (uid : String) (incDel : Bool) (lim off : Nat) :
    (stSys sys (OptimizedNoteService.get_notes false healthyB sys uid incDel
      lim off)).store = sys.store := by
  unfold OptimizedNoteService.get_notes
  rcases hcg : CacheService.get_notes healthyB sys.cache uid incDel lim off with ⟨o, c₁⟩
  match o with
  | some (n :: rest) => rfl
  | some [] => rfl
  | none => rfl

theorem stSys_get_notes_count (sys : Sys) (uid : String) (incDel : Bool) :
    (stSys sys (OptimizedNoteService.get_notes_count false healthyB sys uid
      incDel)).store = sys.store := by
  unfold OptimizedNoteService.get_notes_count
  rcases hcg : CacheService.get_notes_count healthyB sys.cache uid incDel with ⟨o, c₁⟩
  cases o <;> rfl

/-- Single-step preservation: any operation allowed by `preservesDeleted nid`
leaves note `nid` (if currently soft-deleted) soft-deleted. -/
theorem runOp_preserves_deleted (uid nid : String) (sys : Sys) (d : NoteDoc)
    (hl : lookupA (sys.store uid) nid = some d) (hd : d.is_deleted = true)
    (op : NoteOp) (hop : preservesDeleted nid op) :
    ∃ d₂, lookupA ((runOp uid sys op).store uid) nid = some d₂ ∧
      d₂.is_deleted = true := by
  cases op with
  | createOp inp nid₂ now =>
    refine ⟨d, ?_, hd⟩
    have hne : nid ≠ nid₂ := fun hh => hop hh.symm
    simp only [runOp, OptimizedNoteService.create_note,
      FirestoreService.create_subcollection_document, stSys]
    simp only [beq_self_eq_true, if_true, Bool.false_eq_true, if_false]
    rw [lookupA_setA_ne _ _ _ _ hne]
    exact hl
  | getOp nid₂ =>
    refine ⟨d, ?_, hd⟩
    rw [show (runOp uid sys (NoteOp.getOp nid₂)).store
        = (stSys sys (OptimizedNoteService.get_note false healthyB sys nid₂ uid)).store
      from rfl, stSys_get_note]
    exact hl
  | listOp incDel lim off =>
    refine ⟨d, ?_, hd⟩
    rw [show (runOp uid sys (NoteOp.listOp incDel lim off)).store
        = (stSys sys (OptimizedNoteService.get_notes false healthyB sys uid
            incDel lim off)).store from rfl, stSys_get_notes]
    exact hl
  | countOp incDel =>
    refine ⟨d, ?_, hd⟩
    rw [show (runOp uid sys (NoteOp.countOp incDel)).store
        = (stSys sys (OptimizedNoteService.get_notes_count false healthyB sys uid
            incDel)).store from rfl, stSys_get_notes_count]
    exact hl
  | updateOp nid₂ u now =>
    cases hl₂ : lookupA (sys.store uid) nid₂ with
    | none =>
      refine ⟨d, ?_, hd⟩
      simp only [runOp, OptimizedNoteService.update_note,
        FirestoreService.get_subcollection_document, hl₂, Bool.false_eq_true,
        if_false, stSys]
      exact hl
    | some e =>
      simp only [runOp, OptimizedNoteService.update_note,
        FirestoreService.get_subcollection_document, hl₂, Bool.false_eq_true,
        if_false, update_sub_ok _ _ _ _ _ hl₂, stSys]
      by_cases hnn : nid₂ = nid
      · subst hnn
        have hde : e.is_deleted = true := by
          rw [hl₂] at hl
          rw [Option.some.inj hl]
          exact hd
        refine ⟨applyUpd e
            { updated_at := some now, title := u.title, content := u.content
              is_deleted := u.is_deleted, is_pinned := u.is_pinned
              format := u.format, color := u.color }, ?_, ?_⟩
        · simp only [beq_self_eq_true, if_true]
          exact lookupA_updA_self _ _ _ _ hl₂
        · show (u.is_deleted.getD e.is_deleted) = true
          cases hud : u.is_deleted with
          | none => simpa using hde
          | some bb =>
            cases bb with
            | true => rfl
            | false => exact absurd hud (by simpa using hop rfl)
      · refine ⟨d, ?_, hd⟩
        simp only [beq_self_eq_true, if_true]
        rw [lookupA_updA_ne _ _ _ _ (fun hh => hnn hh.symm)]
        exact hl
  | deleteOp nid₂ now =>
    cases hl₂ : lookupA (sys.store uid) nid₂ with
    | none =>
      refine ⟨d, ?_, hd⟩
      simp only [runOp, OptimizedNoteService.delete_note,
        FirestoreService.get_subcollection_document, hl₂, Bool.false_eq_true,
        if_false, stSys]
      exact hl
    | some e =>
      simp only [runOp, OptimizedNoteService.delete_note,
        FirestoreService.get_subcollection_document, hl₂, Bool.false_eq_true,
        if_false, update_sub_ok _ _ _ _ _ hl₂, stSys]
      by_cases hnn : nid₂ = nid
      · subst hnn
        refine ⟨applyUpd e { is_deleted := some true, updated_at := some now },
          ?_, rfl⟩
        simp only [beq_self_eq_true, if_true]
        exact lookupA_updA_self _ _ _ _ hl₂
      · refine ⟨d, ?_, hd⟩
        simp only [beq_self_eq_true, if_true]
        rw [lookupA_updA_ne _ _ _ _ (fun hh => hnn hh.symm)]
        exact hl

/-- C6 (amended): the soft-deleted state is terminal under every sequence of
the exposed repository operations except those that explicitly clear it —
an `update` of the same note whose fields carry `is_deleted=False` (which
resurrects it, see the counterexample), and a `create` re-using the same
time-derived id (Firestore `set` overwrites).  Under every other sequence the
note stays stored with `is_deleted=True`. -/
theorem softdelete_terminal_amended (uid nid : String) (ops : List NoteOp)
    (sys : Sys) (d : NoteDoc) (hl : lookupA (sys.store uid) nid = some d)
    (hd : d.is_deleted = true) (hall : ∀ op ∈ ops, preservesDeleted nid op) :
    ∃ d₂, lookupA ((ops.foldl (runOp uid) sys).store uid) nid = some d₂ ∧
      d₂.is_deleted = true := by
  induction ops generalizing sys d with
  | nil => exact ⟨d, hl, hd⟩
  | cons op rest ih =>
    obtain ⟨d₂, hl₂, hd₂⟩ := runOp_preserves_deleted uid nid sys d hl hd op
      (hall op (List.mem_cons_self _ _))
    exact ih (runOp uid sys op) d₂ hl₂ hd₂
      (fun o ho => hall o (List.mem_cons_of_mem _ ho))

/-- C6 amended witness: on `sysDel`, the sequence delete, update-without-
`is_deleted`, list, count, get, create-of-a-fresh-id leaves `n1` soft-deleted. -/
theorem softdelete_terminal_amended_witness :
    ∃ d₂, lookupA (([NoteOp.deleteOp "n1" 6,
        NoteOp.updateOp "n1" { title := some "x" } 7,
        NoteOp.listOp false 10 0, NoteOp.countOp false, NoteOp.getOp "n1",
        NoteOp.createOp sampleInp "n9" 8].foldl (runOp "u1") sysDel).store "u1")
      "n1" = some d₂ ∧ d₂.is_deleted = true :=
  softdelete_terminal_amended "u1" "n1" _ sysDel (sampleDocDel 1 2) rfl rfl
    (by
      intro op hop
      simp only [List.mem_cons, List.not_mem_nil, or_false] at hop
      rcases hop with h | h | h | h | h | h <;> subst h <;>
        simp [preservesDeleted])

/-- C4 (amended): when a call to the authoritative store raises, `create_note`,
`get_note` (reached on a note-by-id cache miss), `get_notes` (reached on a
list cache miss), `update_note` and `delete_note` surface an operation
failure; `get_notes_count` alone does not — on a count cache miss with the
store failing it returns the normal-looking count `0` with the system
unchanged. -/
theorem store_failure_surfaced_amended (sys : Sys) (uid nid : String)
    (inp : NoteCreate) (u : NoteUpdate) (now : Nat) (incDel : Bool)
    (lim off : Nat)
    (hc₁ : assocFind sys.cache (CacheService.get_note_cache_key nid uid) = none)
    (hc₂ : assocFind sys.cache
      (CacheService.get_notes_cache_key uid incDel lim off) = none)
    (hc₃ : assocFind sys.cache
      (CacheService.get_user_notes_count_key uid incDel) = none) :
    OptimizedNoteService.create_note true healthyB sys inp uid nid now
      = .error () ∧
    OptimizedNoteService.get_note true healthyB sys nid uid = .error () ∧
    OptimizedNoteService.get_notes true healthyB sys uid incDel lim off
      = .error () ∧
    OptimizedNoteService.update_note true healthyB sys nid u uid now
      = .error () ∧
    OptimizedNoteService.delete_note true healthyB sys nid uid now
      = .error () ∧
    OptimizedNoteService.get_notes_count true healthyB sys uid incDel
      = .ok (0, sys) := by
  refine ⟨rfl, ?_, ?_, rfl, rfl, ?_⟩
  · simp only [OptimizedNoteService.get_note, cs_get_note_miss _ _ _ hc₁]
    rfl
  · simp only [OptimizedNoteService.get_notes, cs_get_notes_miss _ _ _ _ _ hc₂]
    rfl
  · simp only [OptimizedNoteService.get_notes_count,
      cs_get_notes_count_miss _ _ _ hc₃]
    rfl

/-- C4 amended witness: concrete instantiation on the empty system. -/
theorem store_failure_surfaced_amended_witness :
    OptimizedNoteService.create_note true healthyB emptySys sampleInp "u1" "n1" 1
      = .error () ∧
    OptimizedNoteService.get_note true healthyB emptySys "n1" "u1" = .error () ∧
    OptimizedNoteService.get_notes true healthyB emptySys "u1" false 10 0
      = .error () ∧
    OptimizedNoteService.update_note true healthyB emptySys "n1"
      { title := some "x" } "u1" 2 = .error () ∧
    OptimizedNoteService.delete_note true healthyB emptySys "n1" "u1" 3
      = .error () ∧
    OptimizedNoteService.get_notes_count true healthyB emptySys "u1" false
      = .ok (0, emptySys) :=
  store_failure_surfaced_amended emptySys "u1" "n1" sampleInp
    { title := some "x" } 2 false 10 0 rfl rfl rfl

/-- C6 (counterexample): owner `u1` stores note `n1` with `is_deleted=True`;
a single exposed `update_note` call whose fields carry `is_deleted=False`
makes the stored note's `is_deleted` field `False` again, so the soft-deleted
state is not terminal under the exposed operations. -/
theorem softdelete_not_terminal :
    (lookupA (sysDel.store "u1") "n1").map NoteDoc.is_deleted = some true ∧
    deletedFlagAfter "u1" "n1" (OptimizedNoteService.update_note false healthyB
      sysDel "n1" { is_deleted := some false } "u1" 5) = some false :=
  ⟨rfl, rfl⟩

end NoteApp
